import Mathlib

/-!
Verification of `fatiando/geoinv/pgrav.py` (class `PGrav`): assembly of the
gravity-inversion sensitivity matrix, first-derivative (smoothness) operator,
data vector, data covariance and depth-weighting operator.

The Python floats are modelled with exact arithmetic: grid coordinates and
kernel values live in `ℚ`; the depth weights, which use `math.sqrt` and a real
power, live in `ℝ`.  The closed-form prism kernels
(`fatiando.directmodels.gravity.prism`) are external to the file under
verification and are modelled as abstract functions of the same arity.
-/

namespace PGrav

/-- A gravity data channel (`fatiando.data.gravity` container, external):
ordered observation locations `loc(i)`, observed values `array`, and
per-measurement standard deviations `std`.  Its Python `len` is the number of
observation points. -/
structure Channel where
  locs : List (ℚ × ℚ × ℚ)
  array : List ℚ
  std : List ℚ
deriving DecidableEq

/-- Python truthiness of an optional channel argument: `None` is falsy, and a
data container (which defines `__len__`) is falsy exactly when it has length
zero. -/
def truthy (o : Option Channel) : Bool :=
  match o with
  | none => false
  | some c => c.locs.length != 0

/-- An abstract prism kernel, one of `prism_gravity.gz, gxx, ..., gzz`:
arguments are density, x1, x2, y1, y2, z1, z2, xp, yp, zp. -/
def Kernel : Type :=
  ℚ → ℚ → ℚ → ℚ → ℚ → ℚ → ℚ → ℚ → ℚ → ℚ → ℚ

/-- The seven field-specific kernels of `fatiando.directmodels.gravity.prism`. -/
structure KernelSet where
  gz : Kernel
  gxx : Kernel
  gxy : Kernel
  gxz : Kernel
  gyy : Kernel
  gyz : Kernel
  gzz : Kernel

/-- The state stored by `PGrav.__init__`: model-space bounds, cell counts, and
the seven optional data channels. -/
structure State where
  x1 : ℚ
  x2 : ℚ
  y1 : ℚ
  y2 : ℚ
  z1 : ℚ
  z2 : ℚ
  nx : ℤ
  ny : ℤ
  nz : ℤ
  gz : Option Channel
  gxx : Option Channel
  gxy : Option Channel
  gxz : Option Channel
  gyy : Option Channel
  gyz : Option Channel
  gzz : Option Channel
deriving DecidableEq

/-- The `RuntimeError` message raised by `PGrav.__init__` when no channel is
truthy. -/
def initErrMsg : String :=
  "Provide at least one of gz, gxx, gxy, gxz, gyy, gyz, or gzz. Cannot do the inversion without data"

/-- `PGrav.__init__`: raises (returns `.error`) iff every channel argument is
falsy; otherwise stores bounds, cell counts and channels.  No other validation
is performed by the constructor. -/
def init (x1 x2 y1 y2 z1 z2 : ℚ) (nx ny nz : ℤ)
    (gz gxx gxy gxz gyy gyz gzz : Option Channel) : Except String State :=
  if !(truthy gz || truthy gxx || truthy gxy || truthy gxz || truthy gyy ||
       truthy gyz || truthy gzz) then
    .error initErrMsg
  else
    .ok ⟨x1, x2, y1, y2, z1, z2, nx, ny, nz, gz, gxx, gxy, gxz, gyy, gyz, gzz⟩

/-- `numpy.arange(start, stop, step)`: the list
`start, start + step, ...` of length `⌈(stop - start) / step⌉` (zero when that
ceiling is not positive). -/
def arange (start stop step : ℚ) : List ℚ :=
  (List.range (⌈(stop - start) / step⌉).toNat).map
    (fun i : ℕ => start + (i : ℚ) * step)

/-- Cell size `dx = (x2 - x1)/nx`. -/
def State.dx (s : State) : ℚ := (s.x2 - s.x1) / (s.nx : ℚ)

/-- Cell size `dy = (y2 - y1)/ny`. -/
def State.dy (s : State) : ℚ := (s.y2 - s.y1) / (s.ny : ℚ)

/-- Cell size `dz = (z2 - z1)/nz`. -/
def State.dz (s : State) : ℚ := (s.z2 - s.z1) / (s.nz : ℚ)

/-- `prism_xs = numpy.arange(x1, x2, dx)`. -/
def State.prism_xs (s : State) : List ℚ := arange s.x1 s.x2 s.dx

/-- `prism_ys = numpy.arange(y1, y2, dy)`. -/
def State.prism_ys (s : State) : List ℚ := arange s.y1 s.y2 s.dy

/-- `prism_zs = numpy.arange(z1, z2, dz)`. -/
def State.prism_zs (s : State) : List ℚ := arange s.z1 s.z2 s.dz

/-- One row of the sensibility matrix: for observation point `p`, iterate the
prisms with `z` outermost, then `y`, then `x`, appending the kernel value of
the unit-density prism `[x, x+dx] × [y, y+dy] × [z, z+dz]`. -/
def sensRow (ker : Kernel) (p : ℚ × ℚ × ℚ) (s : State) : List ℚ :=
  s.prism_zs.flatMap (fun z =>
    s.prism_ys.flatMap (fun y =>
      s.prism_xs.map (fun x =>
        ker 1 x (x + s.dx) y (y + s.dy) z (z + s.dz) p.1 p.2.1 p.2.2)))

/-- The block of rows contributed by one channel: one row per observation
index `i` in `xrange(len(channel))`, at location `loc(i)`. -/
def channelRows (ker : Kernel) (c : Channel) (s : State) : List (List ℚ) :=
  c.locs.map (fun p => sensRow ker p s)

/-- The rows contributed by an optional channel: guarded by the Python
truthiness test `if self._gz:`. -/
def optRows (ker : Kernel) (o : Option Channel) (s : State) : List (List ℚ) :=
  match o with
  | none => []
  | some c => if c.locs.length != 0 then channelRows ker c s else []

/-- `PGrav._build_sensibility`: the channel blocks stacked in the fixed order
gz, gxx, gxy, gxz, gyy, gyz, gzz. -/
def State.build_sensibility (s : State) (K : KernelSet) : List (List ℚ) :=
  optRows K.gz s.gz s ++ optRows K.gxx s.gxx s ++ optRows K.gxy s.gxy s ++
  optRows K.gxz s.gxz s ++ optRows K.gyy s.gyy s ++ optRows K.gyz s.gyz s ++
  optRows K.gzz s.gzz s

/-- The observed-value block contributed by an optional channel in
`PGrav._get_data_array` (guarded by the same truthiness test). -/
def optVals (o : Option Channel) : List ℚ :=
  match o with
  | none => []
  | some c => if c.locs.length != 0 then c.array else []

/-- The standard-deviation block contributed by an optional channel in
`PGrav._get_data_cov`. -/
def optStd (o : Option Channel) : List ℚ :=
  match o with
  | none => []
  | some c => if c.locs.length != 0 then c.std else []

/-- `PGrav._get_data_array`: the observed values concatenated over the truthy
channels in the fixed order gz, gxx, gxy, gxz, gyy, gyz, gzz. -/
def State.get_data_array (s : State) : List ℚ :=
  optVals s.gz ++ optVals s.gxx ++ optVals s.gxy ++ optVals s.gxz ++
  optVals s.gyy ++ optVals s.gyz ++ optVals s.gzz

/-- The concatenated standard deviations assembled inside
`PGrav._get_data_cov`, in the same channel order. -/
def State.get_stddev (s : State) : List ℚ :=
  optStd s.gz ++ optStd s.gxx ++ optStd s.gxy ++ optStd s.gxz ++
  optStd s.gyy ++ optStd s.gyz ++ optStd s.gzz

/-- `numpy.diag(v)`: the square matrix with `v` on the diagonal and zeros
elsewhere, as a list of rows. -/
def diag (v : List ℚ) : List (List ℚ) :=
  (List.range v.length).map (fun r =>
    (List.range v.length).map (fun c => if c = r then v.getD r 0 else 0))

/-- `PGrav._get_data_cov`: `numpy.diag(stddev**2)`. -/
def State.get_data_cov (s : State) : List (List ℚ) :=
  diag (s.get_stddev.map (fun t => t ^ 2))

/-- The (kernel, channel) pairs of the truthy channels, in the fixed
declaration order gz, gxx, gxy, gxz, gyy, gyz, gzz. -/
def optChan (ker : Kernel) (o : Option Channel) : List (Kernel × Channel) :=
  match o with
  | none => []
  | some c => if c.locs.length != 0 then [(ker, c)] else []

/-- The ordered list of present (truthy) channels paired with their kernels. -/
def State.channels (s : State) (K : KernelSet) : List (Kernel × Channel) :=
  optChan K.gz s.gz ++ optChan K.gxx s.gxx ++ optChan K.gxy s.gxy ++
  optChan K.gxz s.gxz ++ optChan K.gyy s.gyy ++ optChan K.gyz s.gyz ++
  optChan K.gzz s.gzz

/-- The observation count a channel argument contributes to the row count `M`:
its length when present (truthy), zero otherwise. -/
def presentCount (o : Option Channel) : ℕ :=
  match o with
  | none => 0
  | some c => if c.locs.length != 0 then c.locs.length else 0

/-- A matrix as a total function on indices; entries outside the allocated
shape are zero (for `numpy.zeros`) and are proved untouched. -/
def Mat (α : Type) : Type := ℕ → ℕ → α

/-- A single in-place write `m[r][c] = v`. -/
def setE {α : Type} (m : Mat α) (r c : ℕ) (v : α) : Mat α :=
  fun r' c' => if r' = r ∧ c' = c then v else m r' c'

/-- The common shape of the three innermost loops of
`PGrav._build_first_deriv`: `n` iterations of
`first_deriv[deriv_i][param_i] = 1; first_deriv[deriv_i][param_i + off] = -1;
deriv_i += 1; param_i += 1`, with `off` equal to `1`, `nx` or `nx*ny`
according to the axis.  The state is `(deriv_i, param_i, matrix)`. -/
def fdInner (off : ℕ) : ℕ → ℕ × ℕ × Mat ℚ → ℕ × ℕ × Mat ℚ
  | 0, st => st
  | n + 1, (d, p, m) =>
      fdInner off n (d + 1, p + 1, setE (setE m d p 1) d (p + off) (-1))

/-- The common shape of the three middle loops: `n` iterations of the inner
loop (`cnt` writes with column offset `off`) followed by `param_i += extra`
(`extra = 1` for the x-direction loop, `0` otherwise). -/
def fdMid (off cnt extra : ℕ) : ℕ → ℕ × ℕ × Mat ℚ → ℕ × ℕ × Mat ℚ
  | 0, st => st
  | n + 1, st =>
      let st2 := fdInner off cnt st
      fdMid off cnt extra n (st2.1, st2.2.1 + extra, st2.2.2)

/-- The common shape of the three outermost loops: `n` iterations of the
middle loop (`mcnt` passes) followed by `param_i += extra2`
(`extra2 = nx` for the y-direction loop, `0` otherwise). -/
def fdOut (off cnt extra mcnt extra2 : ℕ) : ℕ → ℕ × ℕ × Mat ℚ → ℕ × ℕ × Mat ℚ
  | 0, st => st
  | n + 1, st =>
      let st2 := fdMid off cnt extra mcnt st
      fdOut off cnt extra mcnt extra2 n (st2.1, st2.2.1 + extra2, st2.2.2)

/-- `PGrav._build_first_deriv`: starting from `numpy.zeros`, run the
x-direction block (`for k in nz, j in ny, i in nx-1`: write at
`(param_i, param_i + 1)`, then `param_i += 1` per `j`), then with `param_i`
reset the y-direction block (`for k in nz, j in ny-1, i in nx`: write at
`(param_i, param_i + nx)`, then `param_i += nx` per `k`), then with `param_i`
reset the z-direction block (`for k in nz-1, j in ny, i in nx`: write at
`(param_i, param_i + nx*ny)`), `deriv_i` running on through all three. -/
def State.build_first_deriv (s : State) : Mat ℚ :=
  let nx := s.nx.toNat
  let ny := s.ny.toNat
  let nz := s.nz.toNat
  let stx := fdOut 1 (nx - 1) 1 ny 0 nz (0, 0, fun _ _ => 0)
  let sty := fdOut nx nx 0 (ny - 1) nx nz (stx.1, 0, stx.2.2)
  let stz := fdOut (nx * ny) nx 0 ny 0 (nz - 1) (sty.1, 0, sty.2.2)
  stz.2.2

/-- `numpy.identity(n)` as a total function. -/
def identityM (n : ℕ) : Mat ℝ :=
  fun r c => if r < n ∧ r = c then 1 else 0

/-- The inner loop of `PGrav.depth_weights`: `n` iterations of
`weight[l][l] = v; l += 1`. -/
def dwInner (v : ℝ) : ℕ → ℕ × Mat ℝ → ℕ × Mat ℝ
  | 0, st => st
  | n + 1, (l, m) => dwInner v n (l + 1, setE m l l v)

/-- The outer loop of `PGrav.depth_weights`: for each `depth` in `depths`, run
the inner loop `ny*nx` times with value `g depth`. -/
def dwLoop (g : ℚ → ℝ) (nynx : ℕ) : List ℚ → ℕ × Mat ℝ → ℕ × Mat ℝ
  | [], st => st
  | depth :: ds, st => dwLoop g nynx ds (dwInner (g depth) nynx st)

/-- `weight.max()`: the maximum over all entries of the `n × n` matrix
(`numpy` computes the global maximum; the fold starts from the first entry,
which belongs to the matrix whenever `n ≥ 1`). -/
def matMax (m : Mat ℝ) (n : ℕ) : ℝ :=
  ((List.range n).flatMap (fun r => (List.range n).map (fun c => m r c))).foldl
    max (m 0 0)

/-- `PGrav.depth_weights(z0, power)`: overwrite the diagonal of
`numpy.identity(nx*ny*nz)` with `1/(math.sqrt(depth + 0.5*dz + z0)**power)`,
walking `depths = numpy.arange(z1, z2, dz)` with `ny*nx` equal entries per
depth layer, then divide the whole matrix by its maximum entry. -/
noncomputable def State.depth_weights (s : State) (z0 power : ℝ) : Mat ℝ :=
  let P := (s.nx * s.ny * s.nz).toNat
  let depths := arange s.z1 s.z2 s.dz
  let g : ℚ → ℝ := fun depth =>
    1 / Real.sqrt ((depth : ℝ) + 0.5 * (s.dz : ℝ) + z0) ^ power
  let m := (dwLoop g (s.ny * s.nx).toNat depths (0, identityM P)).2
  let mx := matMax m P
  fun r c => m r c / mx

/-- The pre-normalization depth weight written by `PGrav.depth_weights` for
the layer with top boundary `z1 + k*dz`:
`1/(math.sqrt(depth + 0.5*dz + z0)**power)` (the literal `0.5*dz` written as
`dz/2`). -/
noncomputable def layerWeight (s : State) (z0 power : ℝ) (k : ℕ) : ℝ :=
  1 / Real.sqrt ((s.z1 : ℝ) + (k : ℝ) * (s.dz : ℝ) + (s.dz : ℝ) / 2 + z0) ^
    power

/-- The shape-mismatch error message of the observation-data container. -/
def shapeErrMsg : String :=
  "observation-location count disagrees with value or uncertainty count"

/-- Modelled from the spec: the observation-data containers
(`fatiando.data.gravity.VerticalGravity` / `TensorComponent`) are external
collaborators not under `src/`; per the spec a channel whose
observation-location count disagrees with its value or uncertainty count is a
fatal shape-mismatch error detected before matrix assembly begins, i.e. the
container cannot be constructed. -/
def mkChannel (locs : List (ℚ × ℚ × ℚ)) (vals stds : List ℚ) :
    Except String Channel :=
  if vals.length != locs.length || stds.length != locs.length then
    .error shapeErrMsg
  else
    .ok ⟨locs, vals, stds⟩

/-! ## Helper lemmas -/

/-- With exact arithmetic, `numpy.arange(a, b, (b-a)/n)` has exactly `n`
entries `a + i*(b-a)/n`. -/
theorem arange_exact (a b : ℚ) (n : ℤ) (hab : a < b) (hn : 0 < n) :
    arange a b ((b - a) / (n : ℚ)) =
      (List.range n.toNat).map
        (fun i : ℕ => a + (i : ℚ) * ((b - a) / (n : ℚ))) := by
  unfold arange
  have hba : b - a ≠ 0 := ne_of_gt (sub_pos.mpr hab)
  have key : (b - a) / ((b - a) / (n : ℚ)) = (n : ℚ) := by
    rw [div_div_eq_mul_div, mul_comm, mul_div_assoc, div_self hba, mul_one]
  rw [key, Int.ceil_intCast]

theorem prism_xs_eq (s : State) (hx : s.x1 < s.x2) (hnx : 0 < s.nx) :
    s.prism_xs = (List.range s.nx.toNat).map
      (fun i : ℕ => s.x1 + (i : ℚ) * s.dx) :=
  arange_exact s.x1 s.x2 s.nx hx hnx

theorem prism_ys_eq (s : State) (hy : s.y1 < s.y2) (hny : 0 < s.ny) :
    s.prism_ys = (List.range s.ny.toNat).map
      (fun i : ℕ => s.y1 + (i : ℚ) * s.dy) :=
  arange_exact s.y1 s.y2 s.ny hy hny

theorem prism_zs_eq (s : State) (hz : s.z1 < s.z2) (hnz : 0 < s.nz) :
    s.prism_zs = (List.range s.nz.toNat).map
      (fun i : ℕ => s.z1 + (i : ℚ) * s.dz) :=
  arange_exact s.z1 s.z2 s.nz hz hnz

theorem length_flatMap_const {α β : Type} (l : List α) (f : α → List β)
    (c : ℕ) (h : ∀ a ∈ l, (f a).length = c) :
    (l.flatMap f).length = l.length * c := by
  rw [List.length_flatMap,
    List.map_congr_left (fun a ha => by simp [h a ha] : ∀ a ∈ l, (List.length ∘ f) a = c),
    List.map_const', List.sum_replicate, smul_eq_mul]

/-- Every sensibility row has one entry per prism:
`len(prism_zs) * len(prism_ys) * len(prism_xs)` entries. -/
theorem sensRow_length (ker : Kernel) (p : ℚ × ℚ × ℚ) (s : State) :
    (sensRow ker p s).length =
      s.prism_zs.length * (s.prism_ys.length * s.prism_xs.length) := by
  unfold sensRow
  refine length_flatMap_const _ _ _ (fun z _ => ?_)
  refine length_flatMap_const _ _ _ (fun y _ => ?_)
  exact List.length_map _ _

theorem optRows_length (ker : Kernel) (o : Option Channel) (s : State) :
    (optRows ker o s).length = presentCount o := by
  match o with
  | none => rfl
  | some c =>
    by_cases h : c.locs.length != 0 <;>
      simp [optRows, presentCount, channelRows, h]

/-- Membership in a channel block: every row is a `sensRow` at one of the
channel's stored locations. -/
theorem mem_optRows {ker : Kernel} {o : Option Channel} {s : State}
    {row : List ℚ} (h : row ∈ optRows ker o s) :
    ∃ p, row = sensRow ker p s := by
  match o with
  | none => cases h
  | some c =>
    by_cases hc : c.locs.length != 0
    · simp only [optRows, hc, if_true, channelRows, List.mem_map] at h
      obtain ⟨p, _, hp⟩ := h
      exact ⟨p, hp.symm⟩
    · simp [optRows, hc] at h

/-- The sensibility matrix is the concatenation of the per-channel blocks of
the ordered present-channel list. -/
theorem build_sensibility_eq_channels (s : State) (K : KernelSet) :
    s.build_sensibility K =
      (s.channels K).flatMap (fun kc => channelRows kc.1 kc.2 s) := by
  have chunk : ∀ (ker : Kernel) (o : Option Channel),
      optRows ker o s =
        (optChan ker o).flatMap (fun kc => channelRows kc.1 kc.2 s) := by
    intro ker o
    match o with
    | none => rfl
    | some c => by_cases h : c.locs.length != 0 <;> simp [optRows, optChan, h]
  simp only [State.build_sensibility, State.channels, List.flatMap_append, chunk]

/-- The data vector is the concatenation of the observed-value sequences of
the ordered present-channel list. -/
theorem get_data_array_eq_channels (s : State) (K : KernelSet) :
    s.get_data_array = (s.channels K).flatMap (fun kc => kc.2.array) := by
  have chunk : ∀ (ker : Kernel) (o : Option Channel),
      optVals o = (optChan ker o).flatMap (fun kc => kc.2.array) := by
    intro ker o
    match o with
    | none => rfl
    | some c => by_cases h : c.locs.length != 0 <;> simp [optVals, optChan, h]
  simp only [State.get_data_array, State.channels, List.flatMap_append]
  rw [chunk K.gz s.gz, chunk K.gxx s.gxx, chunk K.gxy s.gxy, chunk K.gxz s.gxz,
    chunk K.gyy s.gyy, chunk K.gyz s.gyz, chunk K.gzz s.gzz]

/-- The stacked standard deviations are the concatenation of the uncertainty
sequences of the ordered present-channel list. -/
theorem get_stddev_eq_channels (s : State) (K : KernelSet) :
    s.get_stddev = (s.channels K).flatMap (fun kc => kc.2.std) := by
  have chunk : ∀ (ker : Kernel) (o : Option Channel),
      optStd o = (optChan ker o).flatMap (fun kc => kc.2.std) := by
    intro ker o
    match o with
    | none => rfl
    | some c => by_cases h : c.locs.length != 0 <;> simp [optStd, optChan, h]
  simp only [State.get_stddev, State.channels, List.flatMap_append]
  rw [chunk K.gz s.gz, chunk K.gxx s.gxx, chunk K.gxy s.gxy, chunk K.gxz s.gxz,
    chunk K.gyy s.gyy, chunk K.gyz s.gyz, chunk K.gzz s.gzz]

/-- Indexing a concatenation of constant-length blocks: entry `a*L + t` of
`(range n).flatMap g` is entry `t` of block `a`. -/
theorem getD_flatMap_range {β : Type} (g : ℕ → List β) (L n : ℕ)
    (hL : ∀ t, (g t).length = L) (a t : ℕ) (ha : a < n) (ht : t < L) (d : β) :
    ((List.range n).flatMap g).getD (a * L + t) d = (g a).getD t d := by
  induction n with
  | zero => exact absurd ha (Nat.not_lt_zero a)
  | succ n ih =>
    rw [List.range_succ, List.flatMap_append]
    have hlen : ((List.range n).flatMap g).length = n * L := by
      rw [length_flatMap_const _ _ L (fun x _ => hL x), List.length_range]
    by_cases han : a < n
    · have hidx : a * L + t < ((List.range n).flatMap g).length := by
        rw [hlen]
        calc a * L + t < a * L + L := by omega
        _ = (a + 1) * L := by ring
        _ ≤ n * L := Nat.mul_le_mul_right L han
      rw [List.getD_eq_getElem?_getD, List.getElem?_append_left hidx,
        ← List.getD_eq_getElem?_getD]
      exact ih han
    · have haeq : a = n := by omega
      subst haeq
      have hge : ((List.range a).flatMap g).length ≤ a * L + t := by
        rw [hlen]; omega
      rw [List.getD_eq_getElem?_getD, List.getElem?_append_right hge, hlen]
      simp only [List.flatMap_cons, List.flatMap_nil, List.append_nil,
        Nat.add_sub_cancel_left, ← List.getD_eq_getElem?_getD]

/-- Entry `k*(B*C) + j*C + i` of the triple `z`-outer, `y`-middle, `x`-inner
iteration is the value at `(k, j, i)`. -/
theorem getD_triple (f : ℕ → ℕ → ℕ → ℚ) (A B C : ℕ) (k j i : ℕ)
    (hk : k < A) (hj : j < B) (hi : i < C) :
    (((List.range A).flatMap (fun a => (List.range B).flatMap (fun b =>
        (List.range C).map (fun c => f a b c)))).getD
      (k * (B * C) + j * C + i) 0) = f k j i := by
  have h1 : ∀ a, ((List.range B).flatMap (fun b =>
      (List.range C).map (fun c => f a b c))).length = B * C := by
    intro a
    rw [length_flatMap_const _ _ C (fun b _ => by simp), List.length_range]
  have hji : j * C + i < B * C := by
    calc j * C + i < j * C + C := by omega
    _ = (j + 1) * C := by ring
    _ ≤ B * C := Nat.mul_le_mul_right C hj
  rw [show k * (B * C) + j * C + i = k * (B * C) + (j * C + i) by ring,
    getD_flatMap_range _ (B * C) A h1 k (j * C + i) hk hji 0,
    getD_flatMap_range _ C B (fun b => by simp) j i hj hi 0,
    List.getD_eq_getElem?_getD, List.getElem?_map, List.getElem?_range hi]
  rfl

/-- Under valid bounds and positive cell counts, a sensibility row is the
triple iteration over cell indices `(k, j, i)` of the kernel evaluated on the
prism `[x1+i*dx, x1+(i+1)*dx] × [y1+j*dy, y1+(j+1)*dy] × [z1+k*dz, z1+(k+1)*dz]`. -/
theorem sensRow_eq_triple (ker : Kernel) (p : ℚ × ℚ × ℚ) (s : State)
    (hx : s.x1 < s.x2) (hy : s.y1 < s.y2) (hz : s.z1 < s.z2)
    (hnx : 0 < s.nx) (hny : 0 < s.ny) (hnz : 0 < s.nz) :
    sensRow ker p s =
      (List.range s.nz.toNat).flatMap (fun k : ℕ =>
        (List.range s.ny.toNat).flatMap (fun j : ℕ =>
          (List.range s.nx.toNat).map (fun i : ℕ =>
            ker 1 (s.x1 + (i : ℚ) * s.dx) (s.x1 + (i : ℚ) * s.dx + s.dx)
              (s.y1 + (j : ℚ) * s.dy) (s.y1 + (j : ℚ) * s.dy + s.dy)
              (s.z1 + (k : ℚ) * s.dz) (s.z1 + (k : ℚ) * s.dz + s.dz)
              p.1 p.2.1 p.2.2))) := by
  unfold sensRow
  rw [prism_xs_eq s hx hnx, prism_ys_eq s hy hny, prism_zs_eq s hz hnz]
  simp only [List.flatMap_map, List.map_map, Function.comp_def]

theorem getD_map_range {β : Type} (f : ℕ → β) (n i : ℕ) (hi : i < n) (d : β) :
    ((List.range n).map f).getD i d = f i := by
  rw [List.getD_eq_getElem?_getD, List.getElem?_map, List.getElem?_range hi]
  rfl

theorem getD_map_getElem {α β : Type} (f : α → β) (l : List α) (i : ℕ)
    (hi : i < l.length) (d : β) :
    (l.map f).getD i d = f l[i] := by
  rw [List.getD_eq_getElem?_getD, List.getElem?_map,
    List.getElem?_eq_getElem hi]
  rfl

theorem getD_of_lt {α : Type} (l : List α) (i : ℕ) (hi : i < l.length)
    (d : α) : l.getD i d = l[i] := by
  rw [List.getD_eq_getElem?_getD, List.getElem?_eq_getElem hi]
  rfl

/-- Block indexing of a concatenation of variable-length blocks: entry
`(Σ_{u<t} len u) + i` of `l.flatMap f` is entry `i` of block `t`. -/
theorem getD_flatMap_offset {α β : Type} (l : List α) (f : α → List β)
    (t : ℕ) (ht : t < l.length) (i : ℕ) (hi : i < (f l[t]).length) (d : β) :
    (l.flatMap f).getD
        (((l.take t).map (fun a => (f a).length)).sum + i) d =
      (f l[t]).getD i d := by
  induction l generalizing t with
  | nil => exact absurd ht (Nat.not_lt_zero t)
  | cons a l ih =>
    match t with
    | 0 =>
      simp only [List.getElem_cons_zero] at hi ⊢
      simp only [List.take_zero, List.map_nil, List.sum_nil, Nat.zero_add,
        List.flatMap_cons]
      rw [List.getD_eq_getElem?_getD, List.getElem?_append_left hi,
        ← List.getD_eq_getElem?_getD]
    | t + 1 =>
      have ht2 : t < l.length := Nat.lt_of_succ_lt_succ ht
      simp only [List.getElem_cons_succ] at hi ⊢
      simp only [List.take_succ_cons, List.map_cons, List.sum_cons,
        List.flatMap_cons]
      have hoff : (f a).length ≤
          (f a).length + (((l.take t).map (fun x => (f x).length)).sum + i) :=
        Nat.le_add_right _ _
      rw [Nat.add_assoc, List.getD_eq_getElem?_getD,
        List.getElem?_append_right hoff, Nat.add_sub_cancel_left,
        ← List.getD_eq_getElem?_getD]
      exact ih t ht2 hi

/-- Characterization of the innermost first-derivative loop: after `n`
iterations starting at `(d, p)`, the counters advance by `n` and row `d + t`
(`t < n`) carries `+1` at column `p + t` and `-1` at column `p + t + off`,
other entries unchanged. -/
theorem fdInner_spec (off : ℕ) : ∀ (n d p : ℕ) (m : Mat ℚ),
    (fdInner off n (d, p, m)).1 = d + n ∧
    (fdInner off n (d, p, m)).2.1 = p + n ∧
    ∀ r c, (fdInner off n (d, p, m)).2.2 r c =
      if d ≤ r ∧ r < d + n then
        (if c = p + (r - d) + off then -1
         else if c = p + (r - d) then 1 else m r c)
      else m r c := by
  intro n
  induction n with
  | zero =>
    intro d p m
    refine ⟨rfl, rfl, fun r c => ?_⟩
    rw [if_neg (by omega)]
    rfl
  | succ n ih =>
    intro d p m
    simp only [fdInner]
    obtain ⟨h1, h2, h3⟩ := ih (d + 1) (p + 1) (setE (setE m d p 1) d (p + off) (-1))
    refine ⟨by rw [h1]; omega, by rw [h2]; omega, fun r c => ?_⟩
    rw [h3 r c]
    simp only [setE]
    split_ifs <;> first | rfl | omega

/-- Characterization of a middle first-derivative loop: `n` passes of the
inner loop, each writing `cnt` rows and advancing `param_i` by `cnt + extra`.
Every written row carries `+1` at some column `a ≥ p` and `-1` at `a + off`,
with `a + extra` below the final `param_i`. -/
theorem fdMid_spec (off cnt extra : ℕ) : ∀ (n d p : ℕ) (m : Mat ℚ),
    (fdMid off cnt extra n (d, p, m)).1 = d + n * cnt ∧
    (fdMid off cnt extra n (d, p, m)).2.1 = p + n * (cnt + extra) ∧
    (∀ r c, (r < d ∨ d + n * cnt ≤ r) →
      (fdMid off cnt extra n (d, p, m)).2.2 r c = m r c) ∧
    (∀ r, d ≤ r → r < d + n * cnt → ∃ a,
      p ≤ a ∧ a + extra < p + n * (cnt + extra) ∧
      ∀ c, (fdMid off cnt extra n (d, p, m)).2.2 r c =
        if c = a + off then -1 else if c = a then 1 else m r c) := by
  intro n
  induction n with
  | zero =>
    intro d p m
    exact ⟨by simp [fdMid], by simp [fdMid], fun r c _ => rfl,
      fun r h1 h2 => absurd h2 (by omega)⟩
  | succ n ih =>
    intro d p m
    obtain ⟨g1, g2, g3⟩ := fdInner_spec off cnt d p m
    simp only [fdMid]
    rw [g1, g2]
    obtain ⟨h1, h2, h3, h4⟩ :=
      ih (d + cnt) (p + cnt + extra) (fdInner off cnt (d, p, m)).2.2
    refine ⟨?_, ?_, ?_, ?_⟩
    · rw [h1, Nat.succ_mul]; omega
    · rw [h2, Nat.succ_mul]; omega
    · intro r c hr
      rw [Nat.succ_mul] at hr
      rw [h3 r c (by omega), g3 r c, if_neg (by omega)]
    · intro r hd hr
      rw [Nat.succ_mul] at hr
      by_cases hcase : r < d + cnt
      · refine ⟨p + (r - d), by omega, by rw [Nat.succ_mul]; omega, fun c => ?_⟩
        rw [h3 r c (Or.inl hcase), g3 r c, if_pos ⟨hd, hcase⟩]
      · obtain ⟨a, ha1, ha2, ha3⟩ := h4 r (by omega) (by omega)
        refine ⟨a, by omega, by rw [Nat.succ_mul]; omega, fun c => ?_⟩
        rw [ha3 c]
        by_cases hc1 : c = a + off
        · rw [if_pos hc1, if_pos hc1]
        · rw [if_neg hc1, if_neg hc1]
          by_cases hc2 : c = a
          · rw [if_pos hc2, if_pos hc2]
          · rw [if_neg hc2, if_neg hc2, g3 r c, if_neg (by omega)]

/-- Characterization of an outermost first-derivative loop: `n` passes of the
middle loop (`mcnt` inner passes each), each advancing `param_i` by
`mcnt*(cnt+extra) + extra2`.  Every written row carries `+1` at some column
`a ≥ p` and `-1` at `a + off`, with `a + extra + extra2` below the final
`param_i`. -/
theorem fdOut_spec (off cnt extra mcnt extra2 : ℕ) : ∀ (n d p : ℕ) (m : Mat ℚ),
    (fdOut off cnt extra mcnt extra2 n (d, p, m)).1 = d + n * (mcnt * cnt) ∧
    (fdOut off cnt extra mcnt extra2 n (d, p, m)).2.1 =
      p + n * (mcnt * (cnt + extra) + extra2) ∧
    (∀ r c, (r < d ∨ d + n * (mcnt * cnt) ≤ r) →
      (fdOut off cnt extra mcnt extra2 n (d, p, m)).2.2 r c = m r c) ∧
    (∀ r, d ≤ r → r < d + n * (mcnt * cnt) → ∃ a,
      p ≤ a ∧ a + extra + extra2 < p + n * (mcnt * (cnt + extra) + extra2) ∧
      ∀ c, (fdOut off cnt extra mcnt extra2 n (d, p, m)).2.2 r c =
        if c = a + off then -1 else if c = a then 1 else m r c) := by
  intro n
  induction n with
  | zero =>
    intro d p m
    exact ⟨by simp [fdOut], by simp [fdOut], fun r c _ => rfl,
      fun r h1 h2 => absurd h2 (by omega)⟩
  | succ n ih =>
    intro d p m
    obtain ⟨g1, g2, g3, g4⟩ := fdMid_spec off cnt extra mcnt d p m
    simp only [fdOut]
    rw [g1, g2]
    obtain ⟨h1, h2, h3, h4⟩ := ih (d + mcnt * cnt)
      (p + mcnt * (cnt + extra) + extra2)
      (fdMid off cnt extra mcnt (d, p, m)).2.2
    refine ⟨?_, ?_, ?_, ?_⟩
    · rw [h1, Nat.succ_mul]; omega
    · rw [h2, Nat.succ_mul]; omega
    · intro r c hr
      rw [Nat.succ_mul] at hr
      rw [h3 r c (by omega), g3 r c (by omega)]
    · intro r hd hr
      rw [Nat.succ_mul] at hr
      by_cases hcase : r < d + mcnt * cnt
      · obtain ⟨a, ha1, ha2, ha3⟩ := g4 r hd hcase
        refine ⟨a, ha1, by rw [Nat.succ_mul]; omega, fun c => ?_⟩
        rw [h3 r c (Or.inl hcase), ha3 c]
      · obtain ⟨a, ha1, ha2, ha3⟩ := h4 r (by omega) (by omega)
        refine ⟨a, by omega, by rw [Nat.succ_mul]; omega, fun c => ?_⟩
        rw [ha3 c]
        by_cases hc1 : c = a + off
        · rw [if_pos hc1, if_pos hc1]
        · rw [if_neg hc1, if_neg hc1]
          by_cases hc2 : c = a
          · rw [if_pos hc2, if_pos hc2]
          · rw [if_neg hc2, if_neg hc2, g3 r c (by omega)]

/-- A row holding `+1` at column `a` and `-1` at column `b ≠ a` and zeros
elsewhere has exactly one `+1` entry, exactly one `-1` entry, and sums to
zero over the `P` columns. -/
theorem pat_row_facts (v : ℕ → ℚ) (P a b : ℕ) (ha : a < P) (hb : b < P)
    (hab : a ≠ b)
    (hv : ∀ c, v c = if c = b then -1 else if c = a then 1 else 0) :
    ((Finset.range P).filter (fun c => v c = 1)).card = 1 ∧
    ((Finset.range P).filter (fun c => v c = -1)).card = 1 ∧
    (∑ c ∈ Finset.range P, v c) = 0 := by
  have hfa : (Finset.range P).filter (fun c => v c = 1) = {a} := by
    ext c
    simp only [Finset.mem_filter, Finset.mem_range, Finset.mem_singleton, hv c]
    constructor
    · rintro ⟨hc, hval⟩
      by_cases h1 : c = b
      · rw [if_pos h1] at hval; norm_num at hval
      · rw [if_neg h1] at hval
        by_cases h2 : c = a
        · exact h2
        · rw [if_neg h2] at hval; norm_num at hval
    · rintro rfl
      exact ⟨ha, by rw [if_neg hab, if_pos rfl]⟩
  have hfb : (Finset.range P).filter (fun c => v c = -1) = {b} := by
    ext c
    simp only [Finset.mem_filter, Finset.mem_range, Finset.mem_singleton, hv c]
    constructor
    · rintro ⟨hc, hval⟩
      by_cases h1 : c = b
      · exact h1
      · rw [if_neg h1] at hval
        by_cases h2 : c = a
        · rw [if_pos h2] at hval; norm_num at hval
        · rw [if_neg h2] at hval; norm_num at hval
    · rintro rfl
      exact ⟨hb, by rw [if_pos rfl]⟩
  refine ⟨by rw [hfa, Finset.card_singleton],
    by rw [hfb, Finset.card_singleton], ?_⟩
  have hsplit : ∀ c, v c =
      (if c = a then (1 : ℚ) else 0) + (if c = b then -1 else 0) := by
    intro c
    rw [hv c]
    by_cases h1 : c = b
    · rw [if_pos h1, if_pos h1,
        if_neg (by rw [h1]; exact fun h => hab h.symm), zero_add]
    · rw [if_neg h1, if_neg h1, add_zero]
  rw [Finset.sum_congr rfl (fun c _ => hsplit c), Finset.sum_add_distrib,
    Finset.sum_ite_eq' (Finset.range P) a (fun _ => (1 : ℚ)),
    Finset.sum_ite_eq' (Finset.range P) b (fun _ => (-1 : ℚ)),
    if_pos (Finset.mem_range.mpr ha), if_pos (Finset.mem_range.mpr hb)]
  norm_num

/-- Characterization of the inner depth-weight loop: `n` writes on successive
diagonal cells starting at `l`, all with value `v`. -/
theorem dwInner_spec (v : ℝ) : ∀ (n l : ℕ) (m : Mat ℝ),
    (dwInner v n (l, m)).1 = l + n ∧
    ∀ r c, (dwInner v n (l, m)).2 r c =
      if r = c ∧ l ≤ r ∧ r < l + n then v else m r c := by
  intro n
  induction n with
  | zero =>
    intro l m
    exact ⟨rfl, fun r c => by rw [if_neg (by omega)]; rfl⟩
  | succ n ih =>
    intro l m
    simp only [dwInner]
    obtain ⟨h1, h2⟩ := ih (l + 1) (setE m l l v)
    refine ⟨by rw [h1]; omega, fun r c => ?_⟩
    rw [h2 r c]
    simp only [setE]
    split_ifs <;> first | rfl | omega

/-- Characterization of the depth-weight loop over the depth list: the
diagonal cells `l, l+1, ...` are overwritten in blocks of `nynx` per depth,
cell `r` receiving the weight of depth number `(r - l) / nynx`. -/
theorem dwLoop_spec (g : ℚ → ℝ) (nynx : ℕ) : ∀ (ds : List ℚ) (l : ℕ)
    (m : Mat ℝ),
    (dwLoop g nynx ds (l, m)).1 = l + ds.length * nynx ∧
    ∀ r c, (dwLoop g nynx ds (l, m)).2 r c =
      if r = c ∧ l ≤ r ∧ r < l + ds.length * nynx then
        g (ds.getD ((r - l) / nynx) 0) else m r c := by
  intro ds
  induction ds with
  | nil =>
    intro l m
    refine ⟨by simp [dwLoop], fun r c => ?_⟩
    simp only [dwLoop, List.length_nil, Nat.zero_mul, Nat.add_zero]
    rw [if_neg (by omega)]
  | cons d ds ih =>
    intro l m
    simp only [dwLoop, List.length_cons]
    obtain ⟨g1, g2⟩ := dwInner_spec (g d) nynx l m
    set m1 := (dwInner (g d) nynx (l, m)).2 with hm1
    have htup : dwInner (g d) nynx (l, m) = (l + nynx, m1) := Prod.ext g1 rfl
    rw [htup]
    obtain ⟨h1, h2⟩ := ih (l + nynx) m1
    refine ⟨by rw [h1, Nat.succ_mul]; omega, fun r c => ?_⟩
    rw [h2 r c, g2 r c]
    simp only [Nat.succ_mul]
    by_cases hc1 : r = c ∧ l + nynx ≤ r ∧ r < l + nynx + ds.length * nynx
    · rw [if_pos hc1]
      have h0 : 0 < nynx := by
        rcases Nat.eq_zero_or_pos nynx with h | h
        · exfalso; subst h; omega
        · exact h
      rw [if_pos (show r = c ∧ l ≤ r ∧ r < l + (ds.length * nynx + nynx) from
        ⟨hc1.1, by omega, by omega⟩)]
      have hdiv : (r - l) / nynx = (r - (l + nynx)) / nynx + 1 := by
        rw [show r - l = (r - (l + nynx)) + nynx by omega,
          Nat.add_div_right _ h0]
      rw [hdiv, List.getD_cons_succ]
    · rw [if_neg hc1]
      by_cases hc2 : r = c ∧ l ≤ r ∧ r < l + nynx
      · rw [if_pos hc2, if_pos (show r = c ∧ l ≤ r ∧
          r < l + (ds.length * nynx + nynx) from ⟨hc2.1, hc2.2.1, by omega⟩)]
        have hdiv : (r - l) / nynx = 0 := Nat.div_eq_of_lt (by omega)
        rw [hdiv, List.getD_cons_zero]
      · rw [if_neg hc2, if_neg (by omega)]

theorem foldl_max_init_le {α : Type} [LinearOrder α] :
    ∀ (l : List α) (init : α), init ≤ l.foldl max init := by
  intro l
  induction l with
  | nil => intro init; exact le_refl _
  | cons b l ih =>
    intro init
    exact le_trans (le_max_left init b) (ih (max init b))

theorem le_foldl_max {α : Type} [LinearOrder α] :
    ∀ (l : List α) (init a : α), a ∈ l → a ≤ l.foldl max init := by
  intro l
  induction l with
  | nil => intro init a ha; cases ha
  | cons b l ih =>
    intro init a ha
    rcases List.mem_cons.mp ha with h | h
    · subst h
      exact le_trans (le_max_right init a) (foldl_max_init_le l _)
    · exact ih (max init b) a h

theorem foldl_max_cases {α : Type} [LinearOrder α] :
    ∀ (l : List α) (init : α),
      l.foldl max init = init ∨ l.foldl max init ∈ l := by
  intro l
  induction l with
  | nil => intro init; exact Or.inl rfl
  | cons b l ih =>
    intro init
    rcases ih (max init b) with h | h
    · rcases max_choice init b with h2 | h2
      · exact Or.inl (by rw [List.foldl_cons, h, h2])
      · exact Or.inr (by
          rw [List.foldl_cons, h, h2]
          exact List.mem_cons_self b l)
    · exact Or.inr (List.mem_cons_of_mem b h)

/-- `numpy`'s global matrix maximum bounds every entry and is attained at
some entry. -/
theorem matMax_spec (m : Mat ℝ) (n : ℕ) (hn : 0 < n) :
    (∀ r c, r < n → c < n → m r c ≤ matMax m n) ∧
    (∃ r c, r < n ∧ c < n ∧ matMax m n = m r c) := by
  unfold matMax
  constructor
  · intro r c hr hc
    exact le_foldl_max _ _ _ (List.mem_flatMap.mpr ⟨r, List.mem_range.mpr hr,
      List.mem_map.mpr ⟨c, List.mem_range.mpr hc, rfl⟩⟩)
  · rcases foldl_max_cases
      ((List.range n).flatMap fun r => (List.range n).map (fun c => m r c))
      (m 0 0) with h | h
    · exact ⟨0, 0, hn, hn, h⟩
    · obtain ⟨r, hr, hmem⟩ := List.mem_flatMap.mp h
      obtain ⟨c, hc, heq⟩ := List.mem_map.mp hmem
      exact ⟨r, c, List.mem_range.mp hr, List.mem_range.mp hc, heq.symm⟩

/-- Full characterization of `depth_weights`: there is a positive maximum
`mx` of the layer weights, attained at some layer, such that diagonal entry
`l` (for `l < P`) is the weight of layer `l / (ny*nx)` divided by `mx`, all
off-diagonal entries are zero, and all entries at row `≥ P` are zero. -/
theorem depth_weights_char (s : State) (z0 power : ℝ)
    (hz : s.z1 < s.z2) (hnx : 0 < s.nx) (hny : 0 < s.ny) (hnz : 0 < s.nz)
    (hpos : ∀ k : ℕ, k < s.nz.toNat →
      0 < (s.z1 : ℝ) + (k : ℝ) * (s.dz : ℝ) + (s.dz : ℝ) / 2 + z0) :
    ∃ mx : ℝ, 0 < mx ∧
      (∀ k : ℕ, k < s.nz.toNat → layerWeight s z0 power k ≤ mx) ∧
      (∃ k : ℕ, k < s.nz.toNat ∧ mx = layerWeight s z0 power k) ∧
      (∀ l : ℕ, l < s.nx.toNat * s.ny.toNat * s.nz.toNat →
        s.depth_weights z0 power l l =
          layerWeight s z0 power (l / (s.ny.toNat * s.nx.toNat)) / mx) ∧
      (∀ r c : ℕ, r ≠ c → s.depth_weights z0 power r c = 0) ∧
      (∀ r c : ℕ, s.nx.toNat * s.ny.toNat * s.nz.toNat ≤ r →
        s.depth_weights z0 power r c = 0) := by
  have hW : ∀ r c, s.depth_weights z0 power r c =
      (dwLoop (fun depth : ℚ =>
          1 / Real.sqrt ((depth : ℝ) + 0.5 * (s.dz : ℝ) + z0) ^ power)
        ((s.ny * s.nx).toNat) (arange s.z1 s.z2 s.dz)
        (0, identityM ((s.nx * s.ny * s.nz).toNat))).2 r c /
      matMax
        (dwLoop (fun depth : ℚ =>
          1 / Real.sqrt ((depth : ℝ) + 0.5 * (s.dz : ℝ) + z0) ^ power)
          ((s.ny * s.nx).toNat) (arange s.z1 s.z2 s.dz)
          (0, identityM ((s.nx * s.ny * s.nz).toNat))).2
        ((s.nx * s.ny * s.nz).toNat) :=
    fun r c => rfl
  obtain ⟨L1, L2⟩ := dwLoop_spec
    (fun depth : ℚ =>
      1 / Real.sqrt ((depth : ℝ) + 0.5 * (s.dz : ℝ) + z0) ^ power)
    ((s.ny * s.nx).toNat) (arange s.z1 s.z2 s.dz)
    0 (identityM ((s.nx * s.ny * s.nz).toNat))
  set MM := (dwLoop (fun depth : ℚ =>
      1 / Real.sqrt ((depth : ℝ) + 0.5 * (s.dz : ℝ) + z0) ^ power)
    ((s.ny * s.nx).toNat) (arange s.z1 s.z2 s.dz)
    (0, identityM ((s.nx * s.ny * s.nz).toNat))).2 with hMMdef
  set mx := matMax MM ((s.nx * s.ny * s.nz).toNat) with hmxdef
  set A := s.nx.toNat with hA
  set B := s.ny.toNat with hB
  set N := s.nz.toNat with hN
  have hA1 : 1 ≤ A := by omega
  have hB1 : 1 ≤ B := by omega
  have hN1 : 1 ≤ N := by omega
  have hABpos : 0 < B * A := Nat.mul_pos (by omega) (by omega)
  have hPpos : 0 < A * B * N := Nat.mul_pos (Nat.mul_pos (by omega) (by omega)) (by omega)
  have hP0 : (s.nx * s.ny * s.nz).toNat = A * B * N := by
    have h1 : ((A : ℤ)) = s.nx := Int.toNat_of_nonneg (le_of_lt hnx)
    have h2 : ((B : ℤ)) = s.ny := Int.toNat_of_nonneg (le_of_lt hny)
    have h3 : ((N : ℤ)) = s.nz := Int.toNat_of_nonneg (le_of_lt hnz)
    rw [← h1, ← h2, ← h3, ← Nat.cast_mul, ← Nat.cast_mul, Int.toNat_natCast]
  have hnynx : (s.ny * s.nx).toNat = B * A := by
    have h1 : ((A : ℤ)) = s.nx := Int.toNat_of_nonneg (le_of_lt hnx)
    have h2 : ((B : ℤ)) = s.ny := Int.toNat_of_nonneg (le_of_lt hny)
    rw [← h1, ← h2, ← Nat.cast_mul, Int.toNat_natCast]
  have hPe : A * B * N = N * (B * A) := by ring
  have hdzq : (0 : ℚ) < s.dz :=
    div_pos (sub_pos.mpr hz) (by exact_mod_cast hnz)
  have harange : arange s.z1 s.z2 s.dz =
      (List.range N).map (fun k : ℕ => s.z1 + (k : ℚ) * s.dz) :=
    prism_zs_eq s hz hnz
  have hlen : (arange s.z1 s.z2 s.dz).length = N := by
    rw [harange, List.length_map, List.length_range]
  have hgw : ∀ k : ℕ,
      (1 : ℝ) / Real.sqrt (((s.z1 + (k : ℚ) * s.dz : ℚ) : ℝ) +
        0.5 * (s.dz : ℝ) + z0) ^ power = layerWeight s z0 power k := by
    intro k
    have h05 : (0.5 : ℝ) = 1 / 2 := by norm_num
    have harg : ((s.z1 + (k : ℚ) * s.dz : ℚ) : ℝ) + 0.5 * (s.dz : ℝ) + z0 =
        (s.z1 : ℝ) + (k : ℝ) * (s.dz : ℝ) + (s.dz : ℝ) / 2 + z0 := by
      rw [h05]; push_cast; ring
    rw [layerWeight, harg]
  have hdiag : ∀ l : ℕ, l < A * B * N →
      MM l l = layerWeight s z0 power (l / (B * A)) := by
    intro l hl
    rw [L2 l l, if_pos ⟨rfl, Nat.zero_le l,
      by rw [hlen, hnynx]; omega⟩]
    simp only [Nat.sub_zero, hnynx]
    rw [harange, getD_map_range _ N _ ((Nat.div_lt_iff_lt_mul hABpos).mpr
      (by omega)) 0]
    exact hgw (l / (B * A))
  have hoff : ∀ r c : ℕ, r ≠ c → MM r c = 0 := by
    intro r c hrc
    rw [L2 r c, if_neg (fun hcon => hrc hcon.1)]
    simp [identityM, hrc]
  have hbig : ∀ r c : ℕ, A * B * N ≤ r → MM r c = 0 := by
    intro r c hr
    rw [L2 r c, if_neg (fun hcon => by
      have := hcon.2.2
      rw [hlen, hnynx] at this
      omega)]
    simp only [identityM, hP0]
    rw [if_neg (by omega)]
  have hwpos : ∀ k : ℕ, k < N → 0 < layerWeight s z0 power k := by
    intro k hk
    rw [layerWeight]
    exact one_div_pos.mpr
      (Real.rpow_pos_of_pos (Real.sqrt_pos.mpr (hpos k hk)) power)
  obtain ⟨hub, r0, c0, hr0, hc0, hmxeq⟩ :=
    matMax_spec MM ((s.nx * s.ny * s.nz).toNat) (by rw [hP0]; exact hPpos)
  rw [hP0] at hr0 hc0
  rw [← hmxdef] at hmxeq
  have hm00 : MM 0 0 = layerWeight s z0 power 0 := by
    have h := hdiag 0 hPpos
    rwa [Nat.zero_div] at h
  have hmxpos : 0 < mx := by
    have h1 : MM 0 0 ≤ mx := hub 0 0 (by rw [hP0]; omega) (by rw [hP0]; omega)
    have h2 : 0 < MM 0 0 := by rw [hm00]; exact hwpos 0 (by omega)
    exact lt_of_lt_of_le h2 h1
  have hub_layer : ∀ k : ℕ, k < N → layerWeight s z0 power k ≤ mx := by
    intro k hk
    have hl : k * (B * A) < A * B * N := by
      rw [hPe]
      exact mul_lt_mul_of_pos_right hk hABpos
    have hidx : k * (B * A) / (B * A) = k := Nat.mul_div_cancel k hABpos
    have h := hdiag (k * (B * A)) hl
    rw [hidx] at h
    rw [← h]
    exact hub (k * (B * A)) (k * (B * A)) (by rw [hP0]; exact hl)
      (by rw [hP0]; exact hl)
  have hmx_layer : ∃ k : ℕ, k < N ∧ mx = layerWeight s z0 power k := by
    by_cases hrc : r0 = c0
    · subst hrc
      refine ⟨r0 / (B * A), (Nat.div_lt_iff_lt_mul hABpos).mpr (by omega), ?_⟩
      rw [hmxeq, hdiag r0 hr0]
    · exfalso
      rw [hmxeq, hoff r0 c0 hrc] at hmxpos
      exact lt_irrefl 0 hmxpos
  refine ⟨mx, hmxpos, hub_layer, hmx_layer, ?_, ?_, ?_⟩
  · intro l hl
    rw [hW l l, hdiag l hl]
  · intro r c hrc
    rw [hW r c, hoff r c hrc, zero_div]
  · intro r c hr
    rw [hW r c, hbig r c hr, zero_div]

/-! ## Theorems -/

/-- C7: constructing `PGrav` with all seven channel arguments absent raises
the fatal `RuntimeError` during construction (the constructor returns the
configuration error and never reaches any assembly), and constructing it with
at least one truthy channel does not raise this error (the constructor returns
the assembled state). -/
theorem init_channel_check (x1 x2 y1 y2 z1 z2 : ℚ) (nx ny nz : ℤ)
    (gz gxx gxy gxz gyy gyz gzz : Option Channel) :
    (init x1 x2 y1 y2 z1 z2 nx ny nz none none none none none none none =
      .error initErrMsg) ∧
    ((truthy gz || truthy gxx || truthy gxy || truthy gxz || truthy gyy ||
        truthy gyz || truthy gzz) = true →
      init x1 x2 y1 y2 z1 z2 nx ny nz gz gxx gxy gxz gyy gyz gzz =
        .ok ⟨x1, x2, y1, y2, z1, z2, nx, ny, nz,
             gz, gxx, gxy, gxz, gyy, gyz, gzz⟩) := by
  constructor
  · rfl
  · intro h
    simp [init, h]

/-- Witness for C7 at a concrete input: one truthy channel, so construction
succeeds. -/
theorem init_channel_check_witness :
    (truthy (some ⟨[(1, 1, -1)], [5], [1/10]⟩) || truthy none || truthy none ||
      truthy none || truthy none || truthy none || truthy none) = true ∧
    init 0 2 0 2 0 2 2 2 2 (some ⟨[(1, 1, -1)], [5], [1/10]⟩)
      none none none none none none =
      .ok ⟨0, 2, 0, 2, 0, 2, 2, 2, 2, some ⟨[(1, 1, -1)], [5], [1/10]⟩,
           none, none, none, none, none, none⟩ :=
  ⟨by decide,
   (init_channel_check 0 2 0 2 0 2 2 2 2 (some ⟨[(1, 1, -1)], [5], [1/10]⟩)
      none none none none none none).2 (by decide)⟩

/-- C9 counterexample: constructing `PGrav` with `nx = ny = nz = 0` and all
three bound pairs inverted (`x2 ≤ x1`, `y2 ≤ y1`, `z2 ≤ z1`) raises no error:
the constructor returns the state unchanged, refuting the claim that these are
fatal configuration errors reported at construction time. -/
theorem init_no_bounds_check_cex :
    init 1 0 1 0 1 0 0 0 0 (some ⟨[(0, 0, 0)], [1], [1]⟩)
      none none none none none none =
      .ok ⟨1, 0, 1, 0, 1, 0, 0, 0, 0, some ⟨[(0, 0, 0)], [1], [1]⟩,
           none, none, none, none, none, none⟩ := rfl

/-- C9 amended: the constructor validates only channel presence.  For every
choice of bounds and cell counts — including non-positive counts and inverted
bounds — construction succeeds whenever at least one channel is truthy; no
bounds or cell-count check is performed at construction time. -/
theorem init_no_bounds_check (x1 x2 y1 y2 z1 z2 : ℚ) (nx ny nz : ℤ)
    (gz gxx gxy gxz gyy gyz gzz : Option Channel)
    (h : (truthy gz || truthy gxx || truthy gxy || truthy gxz || truthy gyy ||
        truthy gyz || truthy gzz) = true) :
    init x1 x2 y1 y2 z1 z2 nx ny nz gz gxx gxy gxz gyy gyz gzz =
      .ok ⟨x1, x2, y1, y2, z1, z2, nx, ny, nz,
           gz, gxx, gxy, gxz, gyy, gyz, gzz⟩ := by
  simp [init, h]

/-- Witness for the amended C9: inverted bounds and zero cell counts, one
truthy channel, construction succeeds. -/
theorem init_no_bounds_check_witness :
    (truthy (some ⟨[(0, 0, 0)], [1], [1]⟩) || truthy none || truthy none ||
      truthy none || truthy none || truthy none || truthy none) = true ∧
    init 1 0 1 0 1 0 0 (-1) 0 (some ⟨[(0, 0, 0)], [1], [1]⟩)
      none none none none none none =
      .ok ⟨1, 0, 1, 0, 1, 0, 0, -1, 0, some ⟨[(0, 0, 0)], [1], [1]⟩,
           none, none, none, none, none, none⟩ :=
  ⟨by decide,
   init_no_bounds_check 1 0 1 0 1 0 0 (-1) 0 (some ⟨[(0, 0, 0)], [1], [1]⟩)
      none none none none none none (by decide)⟩

/-- C10: channel presence is Python truthiness, not argument presence.  A
falsy channel object (length zero) is treated as absent everywhere: the
constructor raises the zero-channel configuration error even when all seven
arguments are supplied but falsy, and a falsy channel contributes no rows to
the sensitivity matrix, no entries to the data vector and no entries to the
standard-deviation vector of the covariance. -/
theorem truthiness_decides_presence :
    (∀ (x1 x2 y1 y2 z1 z2 : ℚ) (nx ny nz : ℤ) (c1 c2 c3 c4 c5 c6 c7 : Channel),
      c1.locs.length = 0 → c2.locs.length = 0 → c3.locs.length = 0 →
      c4.locs.length = 0 → c5.locs.length = 0 → c6.locs.length = 0 →
      c7.locs.length = 0 →
      init x1 x2 y1 y2 z1 z2 nx ny nz (some c1) (some c2) (some c3) (some c4)
        (some c5) (some c6) (some c7) = .error initErrMsg) ∧
    (∀ (ker : Kernel) (o : Option Channel) (s : State), truthy o = false →
      optRows ker o s = [] ∧ optVals o = [] ∧ optStd o = []) := by
  constructor
  · intro x1 x2 y1 y2 z1 z2 nx ny nz c1 c2 c3 c4 c5 c6 c7 h1 h2 h3 h4 h5 h6 h7
    simp [init, truthy, h1, h2, h3, h4, h5, h6, h7]
  · intro ker o s h
    match o with
    | none => exact ⟨rfl, rfl, rfl⟩
    | some c =>
      simp only [truthy, bne_eq_false_iff_eq] at h
      simp [optRows, optVals, optStd, h]

/-- Witness for C10: all seven channels supplied but empty, so construction
fails with the zero-channel error; and an explicit falsy channel contributes
empty blocks. -/
theorem truthiness_decides_presence_witness :
    (([] : List (ℚ × ℚ × ℚ)).length = 0 ∧
      init 0 2 0 2 0 2 2 2 2 (some ⟨[], [], []⟩) (some ⟨[], [], []⟩)
        (some ⟨[], [], []⟩) (some ⟨[], [], []⟩) (some ⟨[], [], []⟩)
        (some ⟨[], [], []⟩) (some ⟨[], [], []⟩) = .error initErrMsg) ∧
    (truthy (some ⟨[], [1], [1]⟩) = false ∧
      optVals (some ⟨[], [1], [1]⟩) = []) :=
  ⟨⟨rfl,
    truthiness_decides_presence.1 0 2 0 2 0 2 2 2 2
      ⟨[], [], []⟩ ⟨[], [], []⟩ ⟨[], [], []⟩ ⟨[], [], []⟩ ⟨[], [], []⟩
      ⟨[], [], []⟩ ⟨[], [], []⟩ rfl rfl rfl rfl rfl rfl rfl⟩,
   ⟨by decide,
    (truthiness_decides_presence.2 (fun _ _ _ _ _ _ _ _ _ _ => 0)
      (some ⟨[], [1], [1]⟩)
      ⟨0, 2, 0, 2, 0, 2, 2, 2, 2, none, none, none, none, none, none, none⟩
      (by decide)).2.1⟩⟩

/-- C1: for every constructed system — valid bounds, positive cell counts, at
least one present channel — the sensibility matrix has exactly
`M = Σ observation counts of the present channels` rows and `nx*ny*nz`
columns. -/
theorem build_sensibility_shape (s : State) (K : KernelSet)
    (hx : s.x1 < s.x2) (hy : s.y1 < s.y2) (hz : s.z1 < s.z2)
    (hnx : 0 < s.nx) (hny : 0 < s.ny) (hnz : 0 < s.nz)
    (hch : (truthy s.gz || truthy s.gxx || truthy s.gxy || truthy s.gxz ||
        truthy s.gyy || truthy s.gyz || truthy s.gzz) = true) :
    (s.build_sensibility K).length =
      presentCount s.gz + presentCount s.gxx + presentCount s.gxy +
      presentCount s.gxz + presentCount s.gyy + presentCount s.gyz +
      presentCount s.gzz ∧
    ∀ row ∈ s.build_sensibility K,
      row.length = s.nx.toNat * s.ny.toNat * s.nz.toNat := by
  constructor
  · simp only [State.build_sensibility, List.length_append, optRows_length]
  · intro row hrow
    simp only [State.build_sensibility, List.mem_append] at hrow
    have hr : ∃ (ker : Kernel) (p : ℚ × ℚ × ℚ), row = sensRow ker p s := by
      rcases hrow with ((((((h | h) | h) | h) | h) | h) | h) <;>
        exact ⟨_, mem_optRows h⟩
    obtain ⟨ker, p, rfl⟩ := hr
    rw [sensRow_length, prism_xs_eq s hx hnx, prism_ys_eq s hy hny,
      prism_zs_eq s hz hnz]
    simp only [List.length_map, List.length_range]
    ring

/-- Witness for C1 on the 2×2×2 grid with a single one-point gz channel. -/
theorem build_sensibility_shape_witness :
    ((0 : ℚ) < 2 ∧ (0 : ℤ) < 2 ∧
      (truthy (some ⟨[(1, 1, -1)], [5], [1/10]⟩) || truthy none ||
        truthy none || truthy none || truthy none || truthy none ||
        truthy none) = true) ∧
    ((State.build_sensibility
        ⟨0, 2, 0, 2, 0, 2, 2, 2, 2, some ⟨[(1, 1, -1)], [5], [1/10]⟩,
         none, none, none, none, none, none⟩
        ⟨fun _ _ _ _ _ _ _ _ _ _ => 0, fun _ _ _ _ _ _ _ _ _ _ => 0,
         fun _ _ _ _ _ _ _ _ _ _ => 0, fun _ _ _ _ _ _ _ _ _ _ => 0,
         fun _ _ _ _ _ _ _ _ _ _ => 0, fun _ _ _ _ _ _ _ _ _ _ => 0,
         fun _ _ _ _ _ _ _ _ _ _ => 0⟩).length =
      presentCount (some ⟨[(1, 1, -1)], [5], [1/10]⟩) + presentCount none +
      presentCount none + presentCount none + presentCount none +
      presentCount none + presentCount none ∧
    ∀ row ∈ State.build_sensibility
        ⟨0, 2, 0, 2, 0, 2, 2, 2, 2, some ⟨[(1, 1, -1)], [5], [1/10]⟩,
         none, none, none, none, none, none⟩
        ⟨fun _ _ _ _ _ _ _ _ _ _ => 0, fun _ _ _ _ _ _ _ _ _ _ => 0,
         fun _ _ _ _ _ _ _ _ _ _ => 0, fun _ _ _ _ _ _ _ _ _ _ => 0,
         fun _ _ _ _ _ _ _ _ _ _ => 0, fun _ _ _ _ _ _ _ _ _ _ => 0,
         fun _ _ _ _ _ _ _ _ _ _ => 0⟩,
      row.length = (2 : ℤ).toNat * (2 : ℤ).toNat * (2 : ℤ).toNat) :=
  ⟨⟨by decide, by decide, by decide⟩,
   build_sensibility_shape _ _ (by decide) (by decide) (by decide) (by decide)
     (by decide) (by decide) (by decide)⟩

/-- C2: every sensibility-matrix row is the row of some present channel at
one of its stored observation locations, and within a row the entry in column
`k*nx*ny + j*nx + i` (`z` outermost, then `y`, then `x`) is the unit-density
kernel value of the prism `[x, x+dx] × [y, y+dy] × [z, z+dz]` with
`x = x1 + i*dx`, `y = y1 + j*dy`, `z = z1 + k*dz`, evaluated at the
observation point. -/
theorem build_sensibility_entry_convention (s : State) (K : KernelSet)
    (hx : s.x1 < s.x2) (hy : s.y1 < s.y2) (hz : s.z1 < s.z2)
    (hnx : 0 < s.nx) (hny : 0 < s.ny) (hnz : 0 < s.nz) :
    (∀ row ∈ s.build_sensibility K, ∃ kc ∈ s.channels K, ∃ r : ℕ,
      ∃ hr : r < kc.2.locs.length, row = sensRow kc.1 kc.2.locs[r] s) ∧
    (∀ (ker : Kernel) (p : ℚ × ℚ × ℚ) (i j k : ℕ),
      i < s.nx.toNat → j < s.ny.toNat → k < s.nz.toNat →
      (sensRow ker p s).getD
          (k * (s.nx.toNat * s.ny.toNat) + j * s.nx.toNat + i) 0 =
        ker 1 (s.x1 + (i : ℚ) * s.dx) (s.x1 + (i : ℚ) * s.dx + s.dx)
          (s.y1 + (j : ℚ) * s.dy) (s.y1 + (j : ℚ) * s.dy + s.dy)
          (s.z1 + (k : ℚ) * s.dz) (s.z1 + (k : ℚ) * s.dz + s.dz)
          p.1 p.2.1 p.2.2) := by
  constructor
  · intro row hrow
    rw [build_sensibility_eq_channels] at hrow
    rw [List.mem_flatMap] at hrow
    obtain ⟨kc, hkc, hmem⟩ := hrow
    obtain ⟨p, hp, hrow⟩ := List.mem_map.mp hmem
    obtain ⟨r, hr, hpr⟩ := List.mem_iff_getElem.mp hp
    exact ⟨kc, hkc, r, hr, by rw [← hrow, hpr]⟩
  · intro ker p i j k hi hj hk
    rw [sensRow_eq_triple ker p s hx hy hz hnx hny hnz,
      show k * (s.nx.toNat * s.ny.toNat) + j * s.nx.toNat + i =
        k * (s.ny.toNat * s.nx.toNat) + j * s.nx.toNat + i by ring]
    exact getD_triple _ s.nz.toNat s.ny.toNat s.nx.toNat k j i hk hj hi

/-- Witness for C2: on the 2×2×2 grid over `[0,2]³` the row entry at flat
index `7 = 1*(2*2) + 1*2 + 1` is the kernel evaluated on the prism
`[1,2]×[1,2]×[1,2]` at the stored observation point. -/
theorem build_sensibility_entry_convention_witness :
    ((0 : ℚ) < 2 ∧ (0 : ℤ) < 2) ∧
    (sensRow (fun _ xa _ ya _ za _ _ _ _ => xa + 10 * ya + 100 * za)
        (1, 1, -1)
        ⟨0, 2, 0, 2, 0, 2, 2, 2, 2, some ⟨[(1, 1, -1)], [5], [1/10]⟩,
         none, none, none, none, none, none⟩).getD 7 0 = 111 :=
  ⟨⟨by norm_num, by decide⟩, by
    have h := (build_sensibility_entry_convention
      ⟨0, 2, 0, 2, 0, 2, 2, 2, 2, some ⟨[(1, 1, -1)], [5], [1/10]⟩,
       none, none, none, none, none, none⟩
      ⟨fun _ _ _ _ _ _ _ _ _ _ => 0, fun _ _ _ _ _ _ _ _ _ _ => 0,
       fun _ _ _ _ _ _ _ _ _ _ => 0, fun _ _ _ _ _ _ _ _ _ _ => 0,
       fun _ _ _ _ _ _ _ _ _ _ => 0, fun _ _ _ _ _ _ _ _ _ _ => 0,
       fun _ _ _ _ _ _ _ _ _ _ => 0⟩
      (by decide) (by decide) (by decide) (by decide) (by decide)
      (by decide)).2
      (fun _ xa _ ya _ za _ _ _ _ => xa + 10 * ya + 100 * za)
      (1, 1, -1) 1 1 1 (by decide) (by decide) (by decide)
    exact h.trans (by norm_num [State.dx, State.dy, State.dz])⟩

/-- C3: the data vector, the data covariance and the sensibility matrix stack
their channel blocks in the identical fixed order
gz, gxx, gxy, gxz, gyy, gyz, gzz; the covariance is the diagonal matrix of
squared per-measurement uncertainties in that same order; and row `r` of the
data vector and covariance refers to the same (channel, observation) pair as
sensibility-matrix row `r`: entry `(Σ_{u<t} m_u) + i` of each of the three is
the contribution of observation `i` of present channel `t`. -/
theorem data_cov_sensibility_alignment (s : State) (K : KernelSet)
    (wf : ∀ kc ∈ s.channels K, kc.2.array.length = kc.2.locs.length ∧
      kc.2.std.length = kc.2.locs.length) :
    (s.build_sensibility K =
        (s.channels K).flatMap (fun kc => channelRows kc.1 kc.2 s) ∧
      s.get_data_array = (s.channels K).flatMap (fun kc => kc.2.array) ∧
      s.get_stddev = (s.channels K).flatMap (fun kc => kc.2.std)) ∧
    (s.get_data_array.length = (s.build_sensibility K).length ∧
      s.get_stddev.length = (s.build_sensibility K).length) ∧
    (s.get_data_cov.length = s.get_stddev.length ∧
      ∀ r < s.get_stddev.length, ∀ c < s.get_stddev.length,
        (s.get_data_cov.getD r []).getD c 0 =
          if c = r then s.get_stddev.getD r 0 ^ 2 else 0) ∧
    (∀ t : ℕ, ∀ ht : t < (s.channels K).length, ∀ i : ℕ,
      ∀ hi : i < (s.channels K)[t].2.locs.length,
      (s.build_sensibility K).getD
          ((((s.channels K).take t).map (fun kc => kc.2.locs.length)).sum + i)
          [] = sensRow (s.channels K)[t].1 (s.channels K)[t].2.locs[i] s ∧
      s.get_data_array.getD
          ((((s.channels K).take t).map (fun kc => kc.2.locs.length)).sum + i)
          0 = (s.channels K)[t].2.array.getD i 0 ∧
      s.get_stddev.getD
          ((((s.channels K).take t).map (fun kc => kc.2.locs.length)).sum + i)
          0 = (s.channels K)[t].2.std.getD i 0) := by
  have hloc : ∀ kc ∈ s.channels K,
      (channelRows kc.1 kc.2 s).length = kc.2.locs.length :=
    fun kc _ => List.length_map _ _
  refine ⟨⟨build_sensibility_eq_channels s K, get_data_array_eq_channels s K,
    get_stddev_eq_channels s K⟩, ⟨?_, ?_⟩, ⟨?_, ?_⟩, ?_⟩
  · rw [build_sensibility_eq_channels s K, get_data_array_eq_channels s K,
      List.length_flatMap, List.length_flatMap]
    exact congrArg List.sum (List.map_congr_left fun kc hkc => by
      simp [(wf kc hkc).1, hloc kc hkc])
  · rw [build_sensibility_eq_channels s K, get_stddev_eq_channels s K,
      List.length_flatMap, List.length_flatMap]
    exact congrArg List.sum (List.map_congr_left fun kc hkc => by
      simp [(wf kc hkc).2, hloc kc hkc])
  · simp [State.get_data_cov, diag]
  · intro r hr c hc
    have hrv : r < (s.get_stddev.map (fun t => t ^ 2)).length := by
      rw [List.length_map]; exact hr
    have hcv : c < (s.get_stddev.map (fun t => t ^ 2)).length := by
      rw [List.length_map]; exact hc
    rw [State.get_data_cov, diag, getD_map_range _ _ r hrv,
      getD_map_range _ _ c hcv, getD_of_lt _ r hrv, List.getElem_map,
      getD_of_lt _ r hr]
  · intro t ht i hi
    refine ⟨?_, ?_, ?_⟩
    · rw [build_sensibility_eq_channels s K,
        congrArg List.sum (List.map_congr_left fun kc hkc =>
          (hloc kc (List.mem_of_mem_take hkc)).symm),
        getD_flatMap_offset _ _ t ht i
          (by rw [hloc _ (List.getElem_mem ht)]; exact hi) []]
      unfold channelRows
      rw [getD_map_getElem _ _ i hi []]
    · rw [get_data_array_eq_channels s K,
        congrArg List.sum (List.map_congr_left fun kc hkc =>
          ((wf kc (List.mem_of_mem_take hkc)).1).symm),
        getD_flatMap_offset _ _ t ht i
          (by rw [(wf _ (List.getElem_mem ht)).1]; exact hi) 0]
    · rw [get_stddev_eq_channels s K,
        congrArg List.sum (List.map_congr_left fun kc hkc =>
          ((wf kc (List.mem_of_mem_take hkc)).2).symm),
        getD_flatMap_offset _ _ t ht i
          (by rw [(wf _ (List.getElem_mem ht)).2]; exact hi) 0]

/-- Witness for C3: a concrete well-formed one-channel system, checking the
aligned row counts of data vector and sensibility matrix. -/
theorem data_cov_sensibility_alignment_witness :
    (∀ kc ∈ State.channels
        ⟨0, 2, 0, 2, 0, 2, 2, 2, 2, some ⟨[(1, 1, -1)], [5], [1/10]⟩,
         none, none, none, none, none, none⟩
        ⟨fun _ _ _ _ _ _ _ _ _ _ => 0, fun _ _ _ _ _ _ _ _ _ _ => 0,
         fun _ _ _ _ _ _ _ _ _ _ => 0, fun _ _ _ _ _ _ _ _ _ _ => 0,
         fun _ _ _ _ _ _ _ _ _ _ => 0, fun _ _ _ _ _ _ _ _ _ _ => 0,
         fun _ _ _ _ _ _ _ _ _ _ => 0⟩,
      kc.2.array.length = kc.2.locs.length ∧
        kc.2.std.length = kc.2.locs.length) ∧
    (State.get_data_array
        ⟨0, 2, 0, 2, 0, 2, 2, 2, 2, some ⟨[(1, 1, -1)], [5], [1/10]⟩,
         none, none, none, none, none, none⟩).length =
      (State.build_sensibility
        ⟨0, 2, 0, 2, 0, 2, 2, 2, 2, some ⟨[(1, 1, -1)], [5], [1/10]⟩,
         none, none, none, none, none, none⟩
        ⟨fun _ _ _ _ _ _ _ _ _ _ => 0, fun _ _ _ _ _ _ _ _ _ _ => 0,
         fun _ _ _ _ _ _ _ _ _ _ => 0, fun _ _ _ _ _ _ _ _ _ _ => 0,
         fun _ _ _ _ _ _ _ _ _ _ => 0, fun _ _ _ _ _ _ _ _ _ _ => 0,
         fun _ _ _ _ _ _ _ _ _ _ => 0⟩).length :=
  ⟨by decide,
   ((data_cov_sensibility_alignment
      ⟨0, 2, 0, 2, 0, 2, 2, 2, 2, some ⟨[(1, 1, -1)], [5], [1/10]⟩,
       none, none, none, none, none, none⟩
      ⟨fun _ _ _ _ _ _ _ _ _ _ => 0, fun _ _ _ _ _ _ _ _ _ _ => 0,
       fun _ _ _ _ _ _ _ _ _ _ => 0, fun _ _ _ _ _ _ _ _ _ _ => 0,
       fun _ _ _ _ _ _ _ _ _ _ => 0, fun _ _ _ _ _ _ _ _ _ _ => 0,
       fun _ _ _ _ _ _ _ _ _ _ => 0⟩ (by decide)).2.1).1⟩

/-- C4: for every grid with positive `nx, ny, nz` the first-derivative matrix
has exactly `(nx-1)*ny*nz + nx*(ny-1)*nz + nx*ny*(nz-1)` rows (all later rows
of the function matrix are zero and were never written) and `nx*ny*nz`
columns (all later columns are zero); every row within range carries exactly
one `+1` entry at the lower parameter index `a` and one `-1` entry at its
`+1` neighbour along the block's axis (`a+1`, `a+nx` or `a+nx*ny`), zeros
elsewhere, and sums to `0`. -/
theorem build_first_deriv_rows (s : State)
    (hnx : 0 < s.nx) (hny : 0 < s.ny) (hnz : 0 < s.nz) :
    (∀ r, (s.nx.toNat - 1) * s.ny.toNat * s.nz.toNat +
        s.nx.toNat * (s.ny.toNat - 1) * s.nz.toNat +
        s.nx.toNat * s.ny.toNat * (s.nz.toNat - 1) ≤ r →
      ∀ c, s.build_first_deriv r c = 0) ∧
    (∀ r c, s.nx.toNat * s.ny.toNat * s.nz.toNat ≤ c →
      s.build_first_deriv r c = 0) ∧
    (∀ r, r < (s.nx.toNat - 1) * s.ny.toNat * s.nz.toNat +
        s.nx.toNat * (s.ny.toNat - 1) * s.nz.toNat +
        s.nx.toNat * s.ny.toNat * (s.nz.toNat - 1) →
      ∃ a b, a < b ∧ b < s.nx.toNat * s.ny.toNat * s.nz.toNat ∧
        (b = a + 1 ∨ b = a + s.nx.toNat ∨ b = a + s.nx.toNat * s.ny.toNat) ∧
        (∀ c, s.build_first_deriv r c =
          if c = b then -1 else if c = a then 1 else 0) ∧
        ((Finset.range (s.nx.toNat * s.ny.toNat * s.nz.toNat)).filter
          (fun c => s.build_first_deriv r c = 1)).card = 1 ∧
        ((Finset.range (s.nx.toNat * s.ny.toNat * s.nz.toNat)).filter
          (fun c => s.build_first_deriv r c = -1)).card = 1 ∧
        ∑ c ∈ Finset.range (s.nx.toNat * s.ny.toNat * s.nz.toNat),
          s.build_first_deriv r c = 0) := by
  set A := s.nx.toNat with hA
  set B := s.ny.toNat with hB
  set N := s.nz.toNat with hN
  have hA1 : 1 ≤ A := by omega
  have hB1 : 1 ≤ B := by omega
  have hN1 : 1 ≤ N := by omega
  set stx := fdOut 1 (A - 1) 1 B 0 N (0, 0, (fun _ _ => 0 : Mat ℚ)) with hstx
  set sty := fdOut A A 0 (B - 1) A N (stx.1, 0, stx.2.2) with hsty
  set stz := fdOut (A * B) A 0 B 0 (N - 1) (sty.1, 0, sty.2.2) with hstz
  have hM : s.build_first_deriv = stz.2.2 := by
    rw [hstz, hsty, hstx]; rfl
  obtain ⟨x1, x2, x3, x4⟩ := fdOut_spec 1 (A - 1) 1 B 0 N 0 0
    (fun _ _ => (0 : ℚ))
  rw [← hstx] at x1 x2 x3 x4
  obtain ⟨y1, y2, y3, y4⟩ := fdOut_spec A A 0 (B - 1) A N stx.1 0 stx.2.2
  rw [← hsty] at y1 y2 y3 y4
  obtain ⟨z1, z2, z3, z4⟩ := fdOut_spec (A * B) A 0 B 0 (N - 1) sty.1 0 sty.2.2
  rw [← hstz] at z1 z2 z3 z4
  have hD : (A - 1) * B * N + A * (B - 1) * N + A * B * (N - 1) =
      N * (B * (A - 1)) + N * ((B - 1) * A) + (N - 1) * (B * A) := by ring
  have ex : N * (B * ((A - 1) + 1) + 0) = A * B * N := by
    have h : (A - 1) + 1 = A := by omega
    rw [h]; ring
  have ey : N * ((B - 1) * (A + 0) + A) = A * B * N := by
    have h1 : N * ((B - 1) * (A + 0) + A) = ((B - 1) + 1) * A * N := by ring
    have h2 : (B - 1) + 1 = B := by omega
    rw [h1, h2]; ring
  have ez : (N - 1) * (B * (A + 0) + 0) + A * B = A * B * N := by
    have h1 : (N - 1) * (B * (A + 0) + 0) + A * B = ((N - 1) + 1) * (A * B) := by
      ring
    have h2 : (N - 1) + 1 = N := by omega
    rw [h1, h2]; ring
  have zrow : ∀ r, (A - 1) * B * N + A * (B - 1) * N + A * B * (N - 1) ≤ r →
      ∀ c, s.build_first_deriv r c = 0 := by
    intro r hr c
    rw [hM, z3 r c (by omega), y3 r c (by omega), x3 r c (by omega)]
  have key : ∀ r,
      r < (A - 1) * B * N + A * (B - 1) * N + A * B * (N - 1) →
      ∃ a b, a < b ∧ b < A * B * N ∧
        (b = a + 1 ∨ b = a + A ∨ b = a + A * B) ∧
        ∀ c, s.build_first_deriv r c =
          if c = b then -1 else if c = a then 1 else 0 := by
    intro r hr
    by_cases h1 : r < N * (B * (A - 1))
    · obtain ⟨a, ha0, ha1, hpat⟩ := x4 r (by omega) (by omega)
      refine ⟨a, a + 1, by omega, by omega, Or.inl rfl, fun c => ?_⟩
      rw [hM, z3 r c (by omega), y3 r c (by omega), hpat c]
    · by_cases h2 : r < N * (B * (A - 1)) + N * ((B - 1) * A)
      · obtain ⟨a, ha0, ha1, hpat⟩ := y4 r (by omega) (by omega)
        refine ⟨a, a + A, by omega, by omega, Or.inr (Or.inl rfl),
          fun c => ?_⟩
        rw [hM, z3 r c (by omega), hpat c]
        by_cases hc1 : c = a + A
        · rw [if_pos hc1, if_pos hc1]
        · rw [if_neg hc1, if_neg hc1]
          by_cases hc2 : c = a
          · rw [if_pos hc2, if_pos hc2]
          · rw [if_neg hc2, if_neg hc2, x3 r c (by omega)]
      · have hAB : 0 < A * B := Nat.mul_pos (by omega) (by omega)
        obtain ⟨a, ha0, ha1, hpat⟩ := z4 r (by omega) (by omega)
        refine ⟨a, a + A * B, by omega, by omega, Or.inr (Or.inr rfl),
          fun c => ?_⟩
        rw [hM, hpat c]
        by_cases hc1 : c = a + A * B
        · rw [if_pos hc1, if_pos hc1]
        · rw [if_neg hc1, if_neg hc1]
          by_cases hc2 : c = a
          · rw [if_pos hc2, if_pos hc2]
          · rw [if_neg hc2, if_neg hc2, y3 r c (by omega), x3 r c (by omega)]
  refine ⟨zrow, ?_, ?_⟩
  · intro r c hc
    by_cases hr : r < (A - 1) * B * N + A * (B - 1) * N + A * B * (N - 1)
    · obtain ⟨a, b, hab, hbP, _, hpat⟩ := key r hr
      rw [hpat c, if_neg (by omega), if_neg (by omega)]
    · exact zrow r (by omega) c
  · intro r hr
    obtain ⟨a, b, hab, hbP, hdisj, hpat⟩ := key r hr
    obtain ⟨c1, c2, c3⟩ := pat_row_facts (s.build_first_deriv r) (A * B * N)
      a b (by omega) hbP (by omega) hpat
    exact ⟨a, b, hab, hbP, hdisj, hpat, c1, c2, c3⟩

/-- Witness for C4 on the 2×2×2 grid: all columns at index `≥ 8` of the
first-derivative matrix are zero. -/
theorem build_first_deriv_rows_witness :
    (0 : ℤ) < 2 ∧
    ∀ r c, (2 : ℤ).toNat * (2 : ℤ).toNat * (2 : ℤ).toNat ≤ c →
      State.build_first_deriv
        ⟨0, 2, 0, 2, 0, 2, 2, 2, 2, some ⟨[(1, 1, -1)], [5], [1/10]⟩,
         none, none, none, none, none, none⟩ r c = 0 :=
  ⟨by decide,
   (build_first_deriv_rows
      ⟨0, 2, 0, 2, 0, 2, 2, 2, 2, some ⟨[(1, 1, -1)], [5], [1/10]⟩,
       none, none, none, none, none, none⟩
      (by decide) (by decide) (by decide)).2.1⟩

/-- C5: `depth_weights(z0, power)` is diagonal; the pre-normalization weight
of every parameter in depth layer `k` (all `nx*ny` of them identically) is
`1/sqrt(depth + dz/2 + z0)^power` with `depth = z1 + k*dz` the layer's top
boundary; the diagonal is divided by its maximum `mx`, so every entry is at
most `1` and the largest diagonal entry is exactly `1`. -/
theorem depth_weights_formula (s : State) (z0 power : ℝ)
    (hz : s.z1 < s.z2) (hnx : 0 < s.nx) (hny : 0 < s.ny) (hnz : 0 < s.nz)
    (hpos : ∀ k : ℕ, k < s.nz.toNat →
      0 < (s.z1 : ℝ) + (k : ℝ) * (s.dz : ℝ) + (s.dz : ℝ) / 2 + z0) :
    ∃ mx : ℝ,
      (∀ k : ℕ, k < s.nz.toNat → layerWeight s z0 power k ≤ mx) ∧
      (∃ k : ℕ, k < s.nz.toNat ∧ mx = layerWeight s z0 power k) ∧
      (∀ l : ℕ, l < s.nx.toNat * s.ny.toNat * s.nz.toNat →
        s.depth_weights z0 power l l =
          layerWeight s z0 power (l / (s.nx.toNat * s.ny.toNat)) / mx) ∧
      (∀ r c : ℕ, r ≠ c → s.depth_weights z0 power r c = 0) ∧
      (∀ r c : ℕ, s.depth_weights z0 power r c ≤ 1) ∧
      (∃ l : ℕ, l < s.nx.toNat * s.ny.toNat * s.nz.toNat ∧
        s.depth_weights z0 power l l = 1) := by
  obtain ⟨mx, hmxpos, hub, ⟨k0, hk0, hk0eq⟩, hdiag, hoff, hbig⟩ :=
    depth_weights_char s z0 power hz hnx hny hnz hpos
  have hcomm : s.nx.toNat * s.ny.toNat = s.ny.toNat * s.nx.toNat :=
    Nat.mul_comm _ _
  have hABpos : 0 < s.ny.toNat * s.nx.toNat :=
    Nat.mul_pos (by omega) (by omega)
  have hPe : s.nx.toNat * s.ny.toNat * s.nz.toNat =
      s.nz.toNat * (s.ny.toNat * s.nx.toNat) := by ring
  refine ⟨mx, hub, ⟨k0, hk0, hk0eq⟩, ?_, hoff, ?_, ?_⟩
  · intro l hl
    rw [hcomm]
    exact hdiag l hl
  · intro r c
    by_cases hrc : r = c
    · subst hrc
      by_cases hr : r < s.nx.toNat * s.ny.toNat * s.nz.toNat
      · rw [hdiag r hr]
        have hidx : r / (s.ny.toNat * s.nx.toNat) < s.nz.toNat := by
          rw [Nat.div_lt_iff_lt_mul hABpos]
          omega
        exact (div_le_one hmxpos).mpr (hub _ hidx)
      · rw [hbig r r (by omega)]
        exact zero_le_one
    · rw [hoff r c hrc]
      exact zero_le_one
  · refine ⟨k0 * (s.ny.toNat * s.nx.toNat), ?_, ?_⟩
    · have h1 : k0 * (s.ny.toNat * s.nx.toNat) <
          s.nz.toNat * (s.ny.toNat * s.nx.toNat) :=
        mul_lt_mul_of_pos_right hk0 hABpos
      omega
    · have h1 : k0 * (s.ny.toNat * s.nx.toNat) <
          s.nx.toNat * s.ny.toNat * s.nz.toNat := by
        have := mul_lt_mul_of_pos_right hk0 hABpos
        omega
      rw [hdiag _ h1, Nat.mul_div_cancel k0 hABpos, ← hk0eq]
      exact div_self (ne_of_gt hmxpos)

/-- Witness for C5: on the `[0,2]³`, `2×2×2` grid with `z0 = 1`, `power = 1`
the maximum pre-normalization weight is attained at some layer. -/
theorem depth_weights_formula_witness :
    (0 : ℚ) < 2 ∧
    ∃ mx : ℝ, ∃ k : ℕ, k < (2 : ℤ).toNat ∧
      mx = layerWeight
        ⟨0, 2, 0, 2, 0, 2, 2, 2, 2, some ⟨[(1, 1, -1)], [5], [1/10]⟩,
         none, none, none, none, none, none⟩ 1 1 k := by
  refine ⟨by norm_num, ?_⟩
  obtain ⟨mx, _, hatt, _⟩ := depth_weights_formula
    ⟨0, 2, 0, 2, 0, 2, 2, 2, 2, some ⟨[(1, 1, -1)], [5], [1/10]⟩,
     none, none, none, none, none, none⟩ 1 1
    (by norm_num) (by decide) (by decide) (by decide)
    (by intro k hk; norm_num [State.dz]; positivity)
  exact ⟨mx, hatt⟩

/-- C6: for `power > 0` (and positive layer arguments) the diagonal entries
of the depth-weight matrix are non-increasing as the depth layer index
increases: if `layer(p1) ≤ layer(p2)` then entry `p1 ≥` entry `p2`. -/
theorem depth_weights_monotone (s : State) (z0 power : ℝ)
    (hz : s.z1 < s.z2) (hnx : 0 < s.nx) (hny : 0 < s.ny) (hnz : 0 < s.nz)
    (hpos : ∀ k : ℕ, k < s.nz.toNat →
      0 < (s.z1 : ℝ) + (k : ℝ) * (s.dz : ℝ) + (s.dz : ℝ) / 2 + z0)
    (hpow : 0 < power) :
    ∀ p1 p2 : ℕ, p1 < s.nx.toNat * s.ny.toNat * s.nz.toNat →
      p2 < s.nx.toNat * s.ny.toNat * s.nz.toNat →
      p1 / (s.nx.toNat * s.ny.toNat) ≤ p2 / (s.nx.toNat * s.ny.toNat) →
      s.depth_weights z0 power p2 p2 ≤ s.depth_weights z0 power p1 p1 := by
  obtain ⟨mx, hmxpos, hub, _, hdiag, _, _⟩ :=
    depth_weights_char s z0 power hz hnx hny hnz hpos
  intro p1 p2 hp1 hp2 h12
  rw [hdiag p1 hp1, hdiag p2 hp2]
  have hcomm : s.nx.toNat * s.ny.toNat = s.ny.toNat * s.nx.toNat :=
    Nat.mul_comm _ _
  rw [hcomm] at h12
  have hABpos : 0 < s.ny.toNat * s.nx.toNat :=
    Nat.mul_pos (by omega) (by omega)
  have hPe : s.nx.toNat * s.ny.toNat * s.nz.toNat =
      s.nz.toNat * (s.ny.toNat * s.nx.toNat) := by ring
  have hk2N : p2 / (s.ny.toNat * s.nx.toNat) < s.nz.toNat := by
    rw [Nat.div_lt_iff_lt_mul hABpos]
    omega
  have hk1N : p1 / (s.ny.toNat * s.nx.toNat) < s.nz.toNat :=
    lt_of_le_of_lt h12 hk2N
  have hdzq : (0 : ℚ) < s.dz :=
    div_pos (sub_pos.mpr hz) (by exact_mod_cast hnz)
  have hdzR : (0 : ℝ) < (s.dz : ℝ) := by exact_mod_cast hdzq
  have hble : (s.z1 : ℝ) + (p1 / (s.ny.toNat * s.nx.toNat) : ℕ) *
        (s.dz : ℝ) + (s.dz : ℝ) / 2 + z0 ≤
      (s.z1 : ℝ) + (p2 / (s.ny.toNat * s.nx.toNat) : ℕ) * (s.dz : ℝ) +
        (s.dz : ℝ) / 2 + z0 := by
    have hcast : ((p1 / (s.ny.toNat * s.nx.toNat) : ℕ) : ℝ) ≤
        ((p2 / (s.ny.toNat * s.nx.toNat) : ℕ) : ℝ) := Nat.cast_le.mpr h12
    have := mul_le_mul_of_nonneg_right hcast (le_of_lt hdzR)
    linarith
  have hb1pos := hpos _ hk1N
  have hsq := Real.sqrt_le_sqrt hble
  have hrp := Real.rpow_le_rpow (Real.sqrt_nonneg _) hsq (le_of_lt hpow)
  have hrp1pos : 0 < Real.sqrt ((s.z1 : ℝ) +
      (p1 / (s.ny.toNat * s.nx.toNat) : ℕ) * (s.dz : ℝ) +
      (s.dz : ℝ) / 2 + z0) ^ power :=
    Real.rpow_pos_of_pos (Real.sqrt_pos.mpr hb1pos) power
  have hw : layerWeight s z0 power (p2 / (s.ny.toNat * s.nx.toNat)) ≤
      layerWeight s z0 power (p1 / (s.ny.toNat * s.nx.toNat)) := by
    rw [layerWeight, layerWeight]
    exact one_div_le_one_div_of_le hrp1pos hrp
  rw [div_le_div_iff hmxpos hmxpos]
  exact mul_le_mul_of_nonneg_right hw (le_of_lt hmxpos)

/-- Witness for C6: with `power = 1` the deepest-layer diagonal entry is at
most the shallowest-layer one. -/
theorem depth_weights_monotone_witness :
    (0 : ℝ) < 1 ∧
    State.depth_weights
        ⟨0, 2, 0, 2, 0, 2, 2, 2, 2, some ⟨[(1, 1, -1)], [5], [1/10]⟩,
         none, none, none, none, none, none⟩ 1 1 7 7 ≤
      State.depth_weights
        ⟨0, 2, 0, 2, 0, 2, 2, 2, 2, some ⟨[(1, 1, -1)], [5], [1/10]⟩,
         none, none, none, none, none, none⟩ 1 1 0 0 :=
  ⟨one_pos,
   depth_weights_monotone
     ⟨0, 2, 0, 2, 0, 2, 2, 2, 2, some ⟨[(1, 1, -1)], [5], [1/10]⟩,
      none, none, none, none, none, none⟩ 1 1
     (by norm_num) (by decide) (by decide) (by decide)
     (by intro k hk; norm_num [State.dz]; positivity) one_pos
     0 7 (by decide) (by decide) (by decide)⟩

/-- C8 (spec-modelled): a channel whose observation-location count disagrees
with its observed-value count or its uncertainty count cannot be constructed —
the container fails fatally with the shape-mismatch error — and every channel
the assembly can ever see (every successfully constructed one) has agreeing
counts, so the mismatch is detected before any sensitivity row is computed. -/
theorem channel_shape_check (locs : List (ℚ × ℚ × ℚ)) (vals stds : List ℚ) :
    (¬(vals.length = locs.length ∧ stds.length = locs.length) →
      mkChannel locs vals stds = .error shapeErrMsg) ∧
    (∀ c, mkChannel locs vals stds = .ok c →
      c = ⟨locs, vals, stds⟩ ∧ vals.length = locs.length ∧
        stds.length = locs.length) := by
  constructor
  · intro h
    have : (vals.length != locs.length || stds.length != locs.length) = true := by
      rcases Decidable.not_and_iff_or_not.mp h with h1 | h1 <;>
        simp [bne_iff_ne, h1]
    simp [mkChannel, this]
  · intro c hc
    by_cases h : (vals.length != locs.length || stds.length != locs.length) = true
    · simp [mkChannel, h] at hc
    · simp only [Bool.not_eq_true, Bool.or_eq_false_iff, bne_eq_false_iff_eq]
        at h
      simp only [mkChannel, h.1, h.2, bne_self_eq_false, Bool.or_self,
        Bool.false_eq_true, if_false] at hc
      cases hc
      exact ⟨rfl, h.1, h.2⟩

/-- Witness for C8: a concrete mismatched container fails to construct. -/
theorem channel_shape_check_witness :
    ¬((([1] : List ℚ).length = ([] : List (ℚ × ℚ × ℚ)).length) ∧
        (([1] : List ℚ).length = ([] : List (ℚ × ℚ × ℚ)).length)) ∧
    mkChannel [] [1] [1] = .error shapeErrMsg :=
  ⟨by decide, (channel_shape_check [] [1] [1]).1 (by decide)⟩

end PGrav
